import Mathlib

/-!
Verification of the deadmono cross-entrypoint dead-code intersection engine.

This file embeds the Go package `analysis` (src/analysis/run.go) as pure Lean
definitions and proves properties of the embedding:

* Go maps (`map[string]V`) are embedded as association lists
  `List (String × V)` with `mapLookup` / `mapSet`.  A well-formedness
  predicate (`nodupKeys`) records the fact that a real Go map has at most one
  binding per key.  Iteration (`for k, v := range m`) is embedded as a fold
  over the list; each loop body of the source touches only the entry of the
  key being visited, so the fixed fold order is faithful to Go's unspecified
  map-iteration order.
* Go sets (`map[string]struct{}`) are embedded as `List String` with
  membership, and `m[k] = struct{}{}` as `setInsert`.
* The dead-code analyzer and the go tool are external collaborators; their
  reports enter the model as already-parsed values (per-entrypoint `deps` and
  `deadCode`), exactly the data `intersectDeadCode` consumes.
-/

namespace Analysis

/-- Position of a declaration in a source file
(src/analysis/run.go, type Position). Go uses int for Line and Col; the
analyzer only produces 1-based (hence nonnegative) values, so Nat is used. -/
structure Position where
  file : String
  line : Nat
  col : Nat
deriving DecidableEq

/-- A dead function record (src/analysis/run.go, type Function). -/
structure Function where
  name : String
  position : Position
  generated : Bool
  marker : Bool
deriving DecidableEq

/-- A Go package in the analyzer report (src/analysis/run.go, type Package).
`funcs` is the `Funcs` slice of the report. -/
structure Package where
  name : String
  path : String
  funcs : List Function
deriving DecidableEq

/-- Association-list embedding of a Go `map[string]V`: first binding wins. -/
def mapLookup {V : Type} : List (String × V) → String → Option V
  | [], _ => none
  | (k, v) :: r, q => if k = q then some v else mapLookup r q

/-- Embedding of Go map assignment `m[k] = v`: replace the binding of `k`
(or add one when absent). -/
def mapSet {V : Type} : List (String × V) → String → V → List (String × V)
  | [], k, v => [(k, v)]
  | (k0, v0) :: r, k, v =>
      if k0 = k then (k, v) :: r else (k0, v0) :: mapSet r k v

/-- Embedding of Go set insertion `s[k] = struct{}{}`. -/
def setInsert (s : List String) (k : String) : List String :=
  if k ∈ s then s else k :: s

/-- `deadPackageFuncs` (src/analysis/run.go, lines 309-313): the per-package
record held per entrypoint.  `pkg` is a `*Package` pointer in Go, hence
`Option Package` here (the zero value `deadPackageFuncs{}` has a nil pointer);
`funcs` is the Go map from function name to `*Function`. -/
structure DeadPackageFuncs where
  pkg : Option Package
  funcs : List (String × Function)
deriving DecidableEq

/-- The zero value `deadPackageFuncs{}` stored by the fully-used resets. -/
def emptyDpf : DeadPackageFuncs := ⟨none, []⟩

/-- `entrypointInfo` (src/analysis/run.go, lines 303-307): the per-entrypoint
facts consumed by the intersection engine.  `absPath` plays no role in the
fold and is omitted. -/
structure EntrypointInfo where
  deps : List String
  deadCode : List (String × DeadPackageFuncs)
deriving DecidableEq

/-- Go `len(ep.deadCode[pkg].funcs)`-style access: a missing key yields the
zero value, whose `funcs` map is empty. -/
def funcsOfRecord (o : Option DeadPackageFuncs) : List (String × Function) :=
  (o.map DeadPackageFuncs.funcs).getD []

/-- The function-name intersection of src/analysis/run.go lines 551-556:
iterate the accumulator record `resultFuncs` and keep each name that the
incoming record `epFuncs` also contains, storing the incoming record's
`Function` value (`intersection.funcs[fnName] = fun` with `fun` looked up in
`dpf.funcs`). -/
def intersectFuncs (resultFuncs epFuncs : List (String × Function)) :
    List (String × Function) :=
  resultFuncs.filterMap (fun nf => (mapLookup epFuncs nf.1).map (fun f => (nf.1, f)))

/-- Body of the first inner loop of `intersectDeadCode`
(src/analysis/run.go lines 532-558), for one entry `(pkg, dpf)` of
`ep.deadCode`: adopt the record wholesale when the accumulator has no entry
for `pkg` or has not visited `pkg` as a dependency, otherwise intersect. -/
def mergeDeadCodeEntry (result : EntrypointInfo) (entry : String × DeadPackageFuncs) :
    EntrypointInfo :=
  match mapLookup result.deadCode entry.1 with
  | none =>
      { deps := setInsert result.deps entry.1,
        deadCode := mapSet result.deadCode entry.1 entry.2 }
  | some resultDpf =>
      if entry.1 ∈ result.deps then
        { deps := result.deps,
          deadCode := mapSet result.deadCode entry.1
            ⟨resultDpf.pkg, intersectFuncs resultDpf.funcs entry.2.funcs⟩ }
      else
        { deps := setInsert result.deps entry.1,
          deadCode := mapSet result.deadCode entry.1 entry.2 }

/-- Body of the second inner loop of `intersectDeadCode`
(src/analysis/run.go lines 560-567), for one package `pkg` of `ep.deps`: when
the iterated entrypoint found nothing dead in `pkg`, force the accumulator's
record for `pkg` to the empty record. -/
def markFullyUsed (ep result : EntrypointInfo) (pkg : String) : EntrypointInfo :=
  if funcsOfRecord (mapLookup ep.deadCode pkg) = [] then
    { deps := setInsert result.deps pkg,
      deadCode := mapSet result.deadCode pkg emptyDpf }
  else result

/-- One iteration of the outer fold of `intersectDeadCode`
(src/analysis/run.go lines 531-568): first loop over `ep.deadCode`, then loop
over `ep.deps`. -/
def mergeEntrypoint (result ep : EntrypointInfo) : EntrypointInfo :=
  ep.deps.foldl (markFullyUsed ep) (ep.deadCode.foldl mergeDeadCodeEntry result)

/-- Body of the initialization loop of `intersectDeadCode`
(src/analysis/run.go lines 522-529): materialize an empty record for every
dependency of the first entrypoint that has no dead-code record. -/
def materializeStep (result : EntrypointInfo) (pkg : String) : EntrypointInfo :=
  match mapLookup result.deadCode pkg with
  | some _ => result
  | none =>
      { deps := setInsert result.deps pkg,
        deadCode := mapSet result.deadCode pkg emptyDpf }

/-- The initialization loop of `intersectDeadCode` applied to the first
entrypoint (src/analysis/run.go lines 521-529). -/
def materializeFullyUsed (result : EntrypointInfo) : EntrypointInfo :=
  result.deps.foldl materializeStep result

/-- `intersectDeadCode` (src/analysis/run.go lines 520-569): seed the
accumulator with the first entrypoint, materialize its fully-used packages,
fold the remaining entrypoints, and return the accumulator's dead-code map.
The Go code indexes `eps[0]` unconditionally; `Run` guarantees a non-empty
list, and the empty case here returns the empty map. -/
def intersectDeadCode (eps : List EntrypointInfo) : List (String × DeadPackageFuncs) :=
  match eps with
  | [] => []
  | e0 :: rest => (rest.foldl mergeEntrypoint (materializeFullyUsed e0)).deadCode

/-! ### Module-compatibility policy (`verifyModule`) -/

/-- The runner state touched by `verifyModule` (src/analysis/run.go lines
289-291): the common module name and the has-common-module flag. -/
structure ModuleState where
  commonModule : String
  hasCommonModule : Bool
deriving DecidableEq

/-- Zero value of the runner's module state: Go zero values of the
`commonModule` and `hasCommonModule` fields. -/
def initialModuleState : ModuleState := ⟨"", false⟩

/-- The error text of src/analysis/run.go line 425. -/
def moduleMismatchMsg (c m : String) : String :=
  "different modules are not supported without filter flag: " ++ c ++ " != " ++ m

/-- `verifyModule` (src/analysis/run.go lines 408-431), at the level of the
already-resolved module identity `m` (the trimmed output of the external
`go list -m`, suffixed with a slash, therefore never empty).  The switch of
lines 416-428, in order. -/
def verifyModule (filterFlag : String) (s : ModuleState) (m : String) :
    Except String ModuleState :=
  if s.commonModule = "" then
    Except.ok { commonModule := m, hasCommonModule := true }
  else if s.commonModule = m then
    Except.ok s
  else if filterFlag = "<module>" ∨ filterFlag = "" then
    Except.error (moduleMismatchMsg s.commonModule m)
  else
    Except.ok { commonModule := s.commonModule, hasCommonModule := false }

/-- The chain of `verifyModule` calls `Run` makes, one per entrypoint in
order, stopping at the first error (the failed `scanEntrypoint` makes `Run`
return, src/analysis/run.go lines 347-354). -/
def verifyModules (filterFlag : String) (s : ModuleState) :
    List String → Except String ModuleState
  | [] => Except.ok s
  | m :: ms =>
      match verifyModule filterFlag s m with
      | Except.error e => Except.error e
      | Except.ok s1 => verifyModules filterFlag s1 ms

/-! ### Path normalization (`listEntrypointDeadCode`) -/

/-- Go `filepath.IsAbs` on unix: the path starts with a slash. -/
def isAbsPath (f : String) : Bool :=
  match f.data with
  | c :: _ => c = '/'
  | [] => false

/-- Go `filepath.Join(dir, f)` for the shapes arising here (no `.`/`..`
segments and no duplicated separators, so `Clean` is the identity). -/
def joinPath (dir f : String) : String := dir ++ "/" ++ f

/-- Go `strings.CutPrefix(f, rootPath)` as used on line 508: drop the root
prefix when present, otherwise keep the path. -/
def cutRootDir (rootPath f : String) : String :=
  if rootPath.data.isPrefixOf f.data then ⟨f.data.drop rootPath.data.length⟩ else f

/-- The per-function file-path normalization of `listEntrypointDeadCode`
(src/analysis/run.go lines 499-510): a non-absolute path is joined with
`absDirPath`, the directory of the entrypoint file; afterwards, when the run
has a common module, the (per-entrypoint) root-path prefix is cut. -/
def normalizeFile (hasCommonModule : Bool) (absDirPath rootPath f : String) : String :=
  let f1 := if isAbsPath f then f else joinPath absDirPath f
  if hasCommonModule then cutRootDir rootPath f1 else f1

/-- Modelled from the spec: the path-normalization rule as the spec states it
(spec.md section 4.3, rules 1-3), which joins a relative path with "the
entrypoint's detected module-root directory" (`rootPath`) instead of the
entrypoint's own directory.  Kept only to compare against `normalizeFile`. -/
def normalizeFileSpecModuleRoot (hasCommonModule : Bool) (rootPath f : String) : String :=
  let f1 := if isAbsPath f then f else joinPath rootPath f
  if hasCommonModule then cutRootDir rootPath f1 else f1

/-- The per-package parsing loop of `listEntrypointDeadCode`
(src/analysis/run.go lines 493-515): build the name-keyed `funcs` map with
normalized positions; `pkg.Funcs` is cleared. -/
def parsePackageRecord (hasCommonModule : Bool) (absDirPath rootPath : String)
    (pkg : Package) : DeadPackageFuncs :=
  { pkg := some { pkg with funcs := [] },
    funcs := pkg.funcs.foldl
      (fun acc f =>
        mapSet acc f.name
          { f with position :=
              { f.position with
                  file := normalizeFile hasCommonModule absDirPath rootPath f.position.file } })
      [] }

/-! ### Result emission -/

/-- The text line of `printText` (src/analysis/run.go lines 606-609):
`fmt.Sprintf("%s:%d:%d: unreachable func: %s", ...)`. -/
def renderFunc (f : Function) : String :=
  f.position.file ++ ":" ++ toString f.position.line ++ ":" ++ toString f.position.col
    ++ ": unreachable func: " ++ f.name

/-- The collection loop of `printText` (src/analysis/run.go lines 603-611):
one rendered line for every function of every package record. -/
def renderAll (deadCode : List (String × DeadPackageFuncs)) : List String :=
  deadCode.foldr (fun e acc => e.2.funcs.map (fun nf => renderFunc nf.2) ++ acc) []

/-- `printText` (src/analysis/run.go lines 602-617): collect all lines, sort
them with `slices.Sort` (lexicographic string order), and emit them. -/
def printText (deadCode : List (String × DeadPackageFuncs)) : List String :=
  List.insertionSort (fun a b => a ≤ b) (renderAll deadCode)

/-- The package list built by `printJSON` (src/analysis/run.go lines
572-599): skip empty records, restore each package's function list sorted by
(file, line), and sort packages by import path.  Records with an empty
`funcs` map are skipped before the `pkg` pointer is used, so the `getD`
default is unreachable for data produced by the collectors. -/
def printJSONPkgs (deadCode : List (String × DeadPackageFuncs)) : List Package :=
  let out := deadCode.foldr
    (fun e acc =>
      if e.2.funcs = [] then acc
      else
        ((e.2.pkg.getD { name := "", path := "", funcs := [] }).path,
          { (e.2.pkg.getD { name := "", path := "", funcs := [] }) with
              funcs := List.insertionSort
                (fun a b => a.position.file < b.position.file ∨
                  (a.position.file = b.position.file ∧ a.position.line ≤ b.position.line))
                (e.2.funcs.map Prod.snd) }) :: acc)
    []
  (List.insertionSort (fun a b => a.1 ≤ b.1) out).map Prod.snd

/-! ### The `Run` pipeline -/

/-- What `Run` hands to the writer on success: either the text lines or the
structured document. -/
inductive RunOutput where
  | text (lines : List String)
  | json (pkgs : List Package)
deriving DecidableEq

/-- The early-return collection loops of `Run` (src/analysis/run.go lines
346-362): process per-path collaborator outcomes in order and stop at the
first error. -/
def sequenceResults {A : Type} : List (Except String A) → Except String (List A)
  | [] => Except.ok []
  | Except.error e :: _ => Except.error e
  | Except.ok a :: rs =>
      match sequenceResults rs with
      | Except.error e => Except.error e
      | Except.ok as => Except.ok (a :: as)

/-- `Run` (src/analysis/run.go lines 336-372) over collaborator outcomes:
the no-paths check, the binaries check, the per-path scan loop
(module verification + dependency listing), the per-entrypoint dead-code
collection loop, the fold, and the final emission.  The first component is
what was written to the output writer (`none` when nothing was written), the
second the returned error. -/
def runModel (jsonFlag : Bool) (binaries : Except String Unit)
    (scans : List (Except String EntrypointInfo))
    (deads : List (Except String (List (String × DeadPackageFuncs)))) :
    Option RunOutput × Option String :=
  if scans.isEmpty then (none, some "no paths provided")
  else
    match binaries with
    | Except.error e => (none, some e)
    | Except.ok _ =>
      match sequenceResults scans with
      | Except.error e => (none, some e)
      | Except.ok eps0 =>
        match sequenceResults deads with
        | Except.error e => (none, some e)
        | Except.ok ds =>
          let eps := List.zipWith (fun ep dc => { ep with deadCode := dc }) eps0 ds
          let dead := intersectDeadCode eps
          if jsonFlag then (some (RunOutput.json (printJSONPkgs dead)), none)
          else (some (RunOutput.text (printText dead)), none)

/-! ### Per-package view of the fold

Every loop body of `intersectDeadCode` reads and writes the accumulator only
at the package it is visiting, so the whole fold acts independently on each
package.  `pkgState` projects an `EntrypointInfo` to its state at one
package; `stepPkgState` is the action of one `mergeEntrypoint` on that
projection, and `matStep` the action of the initialization loop.  The
characterization theorems below prove that these projections are faithful. -/

/-- The three-way state of an entrypoint (or of the accumulator) at one
package: dependency-set membership and the dead-code record, if any. -/
def pkgState (ep : EntrypointInfo) (pkg : String) : Bool × Option DeadPackageFuncs :=
  (decide (pkg ∈ ep.deps), mapLookup ep.deadCode pkg)

/-- Action of `mergeDeadCodeEntry` on the per-package state it touches:
intersect when the record exists and the package was visited as a
dependency, adopt wholesale otherwise. -/
def loop1Step (s : Bool × Option DeadPackageFuncs) (dpf : DeadPackageFuncs) :
    Bool × Option DeadPackageFuncs :=
  match s.2 with
  | some rd =>
      if s.1 = true then (true, some ⟨rd.pkg, intersectFuncs rd.funcs dpf.funcs⟩)
      else (true, some dpf)
  | none => (true, some dpf)

/-- Action of one whole `mergeEntrypoint` on the per-package state: the
dead-code loop followed by the fully-used reset. -/
def stepPkgState (s e : Bool × Option DeadPackageFuncs) : Bool × Option DeadPackageFuncs :=
  if e.1 = true ∧ funcsOfRecord e.2 = [] then (true, some emptyDpf)
  else
    match e.2 with
    | some dpf => loop1Step s dpf
    | none => s

/-- Action of the initialization loop on the per-package state. -/
def matStep (s : Bool × Option DeadPackageFuncs) : Bool × Option DeadPackageFuncs :=
  match s.2 with
  | none => if s.1 = true then (true, some emptyDpf) else s
  | some _ => s

/-- The set of function names of a per-package `funcs` map. -/
def namesFinset (funcs : List (String × Function)) : Finset String :=
  (funcs.map Prod.fst).toFinset

/-- The surviving dead-function names a dead-code map assigns to a package:
`none` when the package is absent from the map. -/
def namesAt (m : List (String × DeadPackageFuncs)) (pkg : String) : Option (Finset String) :=
  (mapLookup m pkg).map (fun d => namesFinset d.funcs)

/-- The name-set contribution of one entrypoint at one package, over the
lattice of the spec: `none` for a package the entrypoint has no opinion on,
`some ∅` for a fully-used package, `some` of the reported names otherwise. -/
def contrib (s : Bool × Option DeadPackageFuncs) : Option (Finset String) :=
  if s.1 = true then some (namesFinset (funcsOfRecord s.2)) else none

/-- Merging one contribution into the accumulated name-set verdict:
`none` (unknown) is the identity and name sets intersect. -/
def combineNames (a b : Option (Finset String)) : Option (Finset String) :=
  match b with
  | none => a
  | some s =>
      match a with
      | none => some s
      | some t => some (t ∩ s)

/-- The name-set view of a per-package accumulator state. -/
def absState (s : Bool × Option DeadPackageFuncs) : Option (Finset String) :=
  s.2.map (fun d => namesFinset d.funcs)

/-- A per-package accumulator state that records the package as a visited
dependency with an empty surviving dead set. -/
def emptyShape (s : Bool × Option DeadPackageFuncs) : Prop :=
  s.1 = true ∧ ∃ d, s.2 = some d ∧ d.funcs = []

/-- A Go map has at most one binding per key; association lists coming from
an embedded Go map satisfy this. -/
abbrev nodupKeys (e : EntrypointInfo) : Prop := (e.deadCode.map Prod.fst).Nodup

/-- The data-model invariant of the spec (section 3): every package with a
dead-code record is in the entrypoint's dependency set. -/
abbrev keysSubDeps (e : EntrypointInfo) : Prop :=
  ∀ k ∈ e.deadCode.map Prod.fst, k ∈ e.deps

/-! ### Concrete data used by witnesses and counterexamples -/

/-- A dead function record with the given name, file and line. -/
def mkFun (n file : String) (l : Nat) : Function := ⟨n, ⟨file, l, 1⟩, false, false⟩

/-- An entrypoint that does not import package p but whose analyzer report
contains a dead-code record for p with function f (the analyzer can report
packages outside the dependency set, e.g. main packages). -/
def ceNoDepF : EntrypointInfo := ⟨[], [("p", ⟨none, [("f", mkFun "f" "f.go" 1)]⟩)]⟩

/-- As `ceNoDepF` but reporting function g. -/
def ceNoDepG : EntrypointInfo := ⟨[], [("p", ⟨none, [("g", mkFun "g" "g.go" 2)]⟩)]⟩

/-- An entrypoint importing p and reporting g dead in p. -/
def ceDepG : EntrypointInfo := ⟨["p"], [("p", ⟨none, [("g", mkFun "g" "g.go" 2)]⟩)]⟩

/-- Entrypoint A of the spec's cache scenario: imports cache, reports
Set and Delete dead. -/
def cacheA : EntrypointInfo :=
  ⟨["cache"], [("cache", ⟨none, [("Set", mkFun "Set" "cache.go" 3),
                                 ("Delete", mkFun "Delete" "cache.go" 12)]⟩)]⟩

/-- Entrypoint B of the spec's cache scenario: imports cache, reports
Get and Delete dead. -/
def cacheB : EntrypointInfo :=
  ⟨["cache"], [("cache", ⟨none, [("Get", mkFun "Get" "cache.go" 7),
                                 ("Delete", mkFun "Delete" "cache.go" 12)]⟩)]⟩

/-- Entrypoint C of the spec's cache scenario: does not import cache. -/
def cacheC : EntrypointInfo := ⟨["logging"], []⟩

/-- An entrypoint importing cache and reporting nothing dead in it. -/
def cacheFullyUsed : EntrypointInfo := ⟨["cache"], []⟩

/-- Entrypoints for the C4 counterexample: A and B import p and both report
f and g dead in it. -/
def ceBothFG : EntrypointInfo :=
  ⟨["p"], [("p", ⟨none, [("f", mkFun "f" "p.go" 1), ("g", mkFun "g" "p.go" 2)]⟩)]⟩

/-- The C4 counterexample third entrypoint: does not import p but its report
mentions p with only f dead. -/
def ceOutsiderF : EntrypointInfo := ⟨[], [("p", ⟨none, [("f", mkFun "f" "p.go" 1)]⟩)]⟩

/-- Function record for f as reported by entrypoint A (position in a.go). -/
def wFunA : Function := ⟨"f", ⟨"a.go", 1, 1⟩, false, false⟩

/-- Function record for f as reported by entrypoint B (position in b.go). -/
def wFunB : Function := ⟨"f", ⟨"b.go", 9, 9⟩, false, false⟩

/-- Entrypoint importing p and reporting f dead with record `wFunA`. -/
def wEpA : EntrypointInfo := ⟨["p"], [("p", ⟨none, [("f", wFunA)]⟩)]⟩

/-- Entrypoint importing p and reporting f dead with record `wFunB`. -/
def wEpB : EntrypointInfo := ⟨["p"], [("p", ⟨none, [("f", wFunB)]⟩)]⟩

/-! ## Lemmas about the map and set embeddings -/

theorem mapLookup_mapSet_self {V : Type} (m : List (String × V)) (k : String) (v : V) :
    mapLookup (mapSet m k v) k = some v := by
  induction m with
  | nil => simp [mapSet, mapLookup]
  | cons hd r ih =>
    obtain ⟨k0, v0⟩ := hd
    by_cases hk : k0 = k
    · simp [mapSet, hk, mapLookup]
    · simp [mapSet, hk, mapLookup, ih]

theorem mapLookup_mapSet_ne {V : Type} (m : List (String × V)) (k q : String) (v : V)
    (h : k ≠ q) : mapLookup (mapSet m k v) q = mapLookup m q := by
  induction m with
  | nil => simp [mapSet, mapLookup, h]
  | cons hd r ih =>
    obtain ⟨k0, v0⟩ := hd
    by_cases hk : k0 = k
    · subst hk; simp [mapSet, mapLookup, h]
    · simp [mapSet, hk, mapLookup, ih]

theorem mapLookup_eq_none_of_not_mem {V : Type} (m : List (String × V)) (q : String)
    (h : q ∉ m.map Prod.fst) : mapLookup m q = none := by
  induction m with
  | nil => rfl
  | cons hd r ih =>
    obtain ⟨k0, v0⟩ := hd
    simp only [List.map_cons, List.mem_cons, not_or] at h
    have hne : k0 ≠ q := fun hh => h.1 hh.symm
    simp [mapLookup, hne, ih h.2]

theorem mem_of_mapLookup_isSome {V : Type} (m : List (String × V)) (q : String)
    (h : (mapLookup m q).isSome = true) : q ∈ m.map Prod.fst := by
  induction m with
  | nil => simp [mapLookup] at h
  | cons hd r ih =>
    obtain ⟨k0, v0⟩ := hd
    by_cases hk : k0 = q
    · simp [hk]
    · simp only [mapLookup, if_neg hk] at h
      simp [ih h]

theorem mem_setInsert (s : List String) (k q : String) :
    q ∈ setInsert s k ↔ q = k ∨ q ∈ s := by
  unfold setInsert
  by_cases hk : k ∈ s
  · simp only [if_pos hk]
    exact ⟨Or.inr, fun h => h.elim (fun hq => hq ▸ hk) id⟩
  · simp [if_neg hk, List.mem_cons]

/-! ## Per-package characterization of the fold

Each loop body of `intersectDeadCode` only reads and writes the accumulator
at the one package it visits, so the whole fold is characterized pointwise:
`pkgState` after a `mergeEntrypoint` is `stepPkgState` of the two projected
states, and after the initialization loop it is `matStep`. -/

theorem pkgState_mergeDeadCodeEntry_ne (res : EntrypointInfo)
    (ent : String × DeadPackageFuncs) (q : String) (h : ent.1 ≠ q) :
    pkgState (mergeDeadCodeEntry res ent) q = pkgState res q := by
  have hq : ¬ q = ent.1 := fun hh => h hh.symm
  unfold mergeDeadCodeEntry
  cases hL : mapLookup res.deadCode ent.1 with
  | none =>
      simp [pkgState, mapLookup_mapSet_ne _ _ _ _ h, decide_eq_decide, mem_setInsert, hq]
  | some rdpf =>
      by_cases hd : ent.1 ∈ res.deps
      · simp [pkgState, hd, mapLookup_mapSet_ne _ _ _ _ h]
      · simp [pkgState, hd, mapLookup_mapSet_ne _ _ _ _ h, decide_eq_decide,
          mem_setInsert, hq]

theorem pkgState_mergeDeadCodeEntry_self (res : EntrypointInfo)
    (ent : String × DeadPackageFuncs) :
    pkgState (mergeDeadCodeEntry res ent) ent.1 = loop1Step (pkgState res ent.1) ent.2 := by
  unfold mergeDeadCodeEntry
  cases hL : mapLookup res.deadCode ent.1 with
  | none =>
      simp [pkgState, hL, loop1Step, mapLookup_mapSet_self, mem_setInsert]
  | some rdpf =>
      by_cases hd : ent.1 ∈ res.deps
      · simp [pkgState, hL, hd, loop1Step, mapLookup_mapSet_self]
      · simp [pkgState, hL, hd, loop1Step, mapLookup_mapSet_self, mem_setInsert]

theorem pkgState_foldl_merge_not_mem (entries : List (String × DeadPackageFuncs))
    (res : EntrypointInfo) (q : String) (h : q ∉ entries.map Prod.fst) :
    pkgState (entries.foldl mergeDeadCodeEntry res) q = pkgState res q := by
  induction entries generalizing res with
  | nil => rfl
  | cons hd r ih =>
    simp only [List.map_cons, List.mem_cons, not_or] at h
    rw [List.foldl_cons, ih _ h.2, pkgState_mergeDeadCodeEntry_ne res hd q
      (fun hh => h.1 hh.symm)]

theorem pkgState_foldl_merge (entries : List (String × DeadPackageFuncs))
    (res : EntrypointInfo) (q : String) (hnd : (entries.map Prod.fst).Nodup) :
    pkgState (entries.foldl mergeDeadCodeEntry res) q =
      match mapLookup entries q with
      | none => pkgState res q
      | some dpf => loop1Step (pkgState res q) dpf := by
  induction entries generalizing res with
  | nil => rfl
  | cons hd r ih =>
    obtain ⟨k0, dpf0⟩ := hd
    simp only [List.map_cons, List.nodup_cons] at hnd
    by_cases hk : k0 = q
    · subst hk
      rw [List.foldl_cons, pkgState_foldl_merge_not_mem r _ k0 hnd.1,
        pkgState_mergeDeadCodeEntry_self res (k0, dpf0)]
      simp [mapLookup]
    · rw [List.foldl_cons, ih _ hnd.2]
      have hstate := pkgState_mergeDeadCodeEntry_ne res (k0, dpf0) q hk
      cases hLq : mapLookup r q with
      | none => simp [mapLookup, hk, hLq, hstate]
      | some dpf => simp [mapLookup, hk, hLq, hstate]

theorem pkgState_markFullyUsed_ne (ep res : EntrypointInfo) (k q : String) (h : k ≠ q) :
    pkgState (markFullyUsed ep res k) q = pkgState res q := by
  have hq : ¬ q = k := fun hh => h hh.symm
  unfold markFullyUsed
  split
  · simp [pkgState, mapLookup_mapSet_ne _ _ _ _ h, decide_eq_decide, mem_setInsert, hq]
  · rfl

theorem pkgState_markFullyUsed_self (ep res : EntrypointInfo) (k : String) :
    pkgState (markFullyUsed ep res k) k =
      if funcsOfRecord (mapLookup ep.deadCode k) = [] then (true, some emptyDpf)
      else pkgState res k := by
  unfold markFullyUsed
  split
  · next hcond => simp [pkgState, hcond, mapLookup_mapSet_self, mem_setInsert]
  · next hcond => simp [hcond]

theorem pkgState_foldl_mark (ep : EntrypointInfo) (ds : List String)
    (res : EntrypointInfo) (q : String) :
    pkgState (ds.foldl (markFullyUsed ep) res) q =
      if q ∈ ds ∧ funcsOfRecord (mapLookup ep.deadCode q) = [] then (true, some emptyDpf)
      else pkgState res q := by
  induction ds generalizing res with
  | nil => simp
  | cons k r ih =>
    rw [List.foldl_cons, ih]
    by_cases hk : k = q
    · subst hk
      by_cases hemp : funcsOfRecord (mapLookup ep.deadCode k) = []
      · by_cases hmem : k ∈ r
        · simp [hmem, hemp]
        · simp [hmem, hemp, pkgState_markFullyUsed_self]
      · simp [hemp, pkgState_markFullyUsed_self]
    · have hq : ¬ q = k := fun hh => hk hh.symm
      rw [pkgState_markFullyUsed_ne ep res k q hk]
      simp [List.mem_cons, hq]

theorem pkgState_materializeStep_ne (acc : EntrypointInfo) (k q : String) (h : k ≠ q) :
    pkgState (materializeStep acc k) q = pkgState acc q := by
  have hq : ¬ q = k := fun hh => h hh.symm
  unfold materializeStep
  cases hL : mapLookup acc.deadCode k with
  | some _ => rfl
  | none =>
      simp [pkgState, mapLookup_mapSet_ne _ _ _ _ h, decide_eq_decide, mem_setInsert, hq]

theorem pkgState_foldl_mat (ds : List String) (acc : EntrypointInfo) (q : String) :
    pkgState (ds.foldl materializeStep acc) q =
      if q ∈ ds ∧ mapLookup acc.deadCode q = none then (true, some emptyDpf)
      else pkgState acc q := by
  induction ds generalizing acc with
  | nil => simp
  | cons k r ih =>
    rw [List.foldl_cons, ih]
    by_cases hk : k = q
    · subst hk
      cases hL : mapLookup acc.deadCode k with
      | none =>
        have h1 : mapLookup (materializeStep acc k).deadCode k = some emptyDpf := by
          unfold materializeStep
          rw [hL]
          exact mapLookup_mapSet_self _ _ _
        have h2 : pkgState (materializeStep acc k) k = (true, some emptyDpf) := by
          unfold materializeStep
          rw [hL]
          simp [pkgState, mapLookup_mapSet_self, mem_setInsert]
        simp [h1, h2, hL]
      | some d =>
        have h0 : materializeStep acc k = acc := by
          unfold materializeStep
          rw [hL]
        rw [h0]
        simp [hL]
    · have hq : ¬ q = k := fun hh => hk hh.symm
      have h0 : pkgState (materializeStep acc k) q = pkgState acc q :=
        pkgState_materializeStep_ne acc k q hk
      have h0L : mapLookup (materializeStep acc k).deadCode q = mapLookup acc.deadCode q := by
        unfold materializeStep
        cases hL : mapLookup acc.deadCode k with
        | some _ => rfl
        | none => simp [mapLookup_mapSet_ne _ _ _ _ hk]
      rw [h0, h0L]
      simp [List.mem_cons, hq]

theorem pkgState_materializeFullyUsed (e0 : EntrypointInfo) (q : String) :
    pkgState (materializeFullyUsed e0) q = matStep (pkgState e0 q) := by
  unfold materializeFullyUsed
  rw [pkgState_foldl_mat]
  by_cases hdep : q ∈ e0.deps
  · cases hL : mapLookup e0.deadCode q with
    | none => simp [pkgState, matStep, hL, hdep]
    | some d => simp [pkgState, matStep, hL, hdep]
  · cases hL : mapLookup e0.deadCode q with
    | none => simp [pkgState, matStep, hL, hdep]
    | some d => simp [pkgState, matStep, hL, hdep]

theorem pkgState_mergeEntrypoint (res ep : EntrypointInfo) (q : String)
    (hnd : nodupKeys ep) :
    pkgState (mergeEntrypoint res ep) q = stepPkgState (pkgState res q) (pkgState ep q) := by
  unfold mergeEntrypoint stepPkgState
  rw [pkgState_foldl_mark, pkgState_foldl_merge _ _ _ hnd]
  cases hL : mapLookup ep.deadCode q with
  | none => simp [pkgState, hL]
  | some dpf => simp [pkgState, hL]

theorem pkgState_fold_merge_eps (rest : List EntrypointInfo) (res : EntrypointInfo)
    (q : String) (h : ∀ e ∈ rest, nodupKeys e) :
    pkgState (rest.foldl mergeEntrypoint res) q =
      (rest.map (fun e => pkgState e q)).foldl stepPkgState (pkgState res q) := by
  induction rest generalizing res with
  | nil => rfl
  | cons e r ih =>
    rw [List.foldl_cons, List.map_cons, List.foldl_cons,
      ih _ (fun x hx => h x (List.mem_cons_of_mem _ hx)),
      pkgState_mergeEntrypoint res e q (h e (List.mem_cons_self _ _))]

theorem intersectDeadCode_lookup_char (e0 : EntrypointInfo) (rest : List EntrypointInfo)
    (q : String) (h : ∀ e ∈ rest, nodupKeys e) :
    mapLookup (intersectDeadCode (e0 :: rest)) q =
      ((rest.map (fun e => pkgState e q)).foldl stepPkgState (matStep (pkgState e0 q))).2 := by
  have hshow : mapLookup (intersectDeadCode (e0 :: rest)) q
      = (pkgState (rest.foldl mergeEntrypoint (materializeFullyUsed e0)) q).2 := rfl
  rw [hshow, pkgState_fold_merge_eps _ _ _ h, pkgState_materializeFullyUsed]

/-! ## The name-set (lattice) view of the fold

Under the spec's data-model invariant (`keysSubDeps`), the per-package fold
computes, in the lattice {unknown, fully-used, partial-dead-set}, the
intersection of the contributions of all entrypoints, with unknown (`none`)
as the identity. -/

theorem mapLookup_isSome_iff_mem {V : Type} (m : List (String × V)) (q : String) :
    (mapLookup m q).isSome = true ↔ q ∈ m.map Prod.fst := by
  constructor
  · exact mem_of_mapLookup_isSome m q
  · intro h
    induction m with
    | nil => simp at h
    | cons hd r ih =>
      obtain ⟨k0, v0⟩ := hd
      by_cases hk : k0 = q
      · simp [mapLookup, hk]
      · simp only [List.map_cons, List.mem_cons] at h
        rcases h with h | h
        · exact absurd h.symm hk
        · simp [mapLookup, hk, ih h]

theorem mem_namesFinset (funcs : List (String × Function)) (n : String) :
    n ∈ namesFinset funcs ↔ (mapLookup funcs n).isSome = true := by
  rw [namesFinset, List.mem_toFinset, mapLookup_isSome_iff_mem]

theorem namesFinset_intersectFuncs (f g : List (String × Function)) :
    namesFinset (intersectFuncs f g) = namesFinset f ∩ namesFinset g := by
  ext n
  simp only [namesFinset, List.mem_toFinset, Finset.mem_inter, List.mem_map,
    intersectFuncs, List.mem_filterMap, Option.map_eq_some']
  constructor
  · rintro ⟨x, ⟨a, ha, f0, hf0, rfl⟩, hx1⟩
    simp only at hx1
    subst hx1
    refine ⟨⟨a, ha, rfl⟩, ?_⟩
    have hs : (mapLookup g a.1).isSome = true := by simp [hf0]
    exact List.mem_map.mp (mem_of_mapLookup_isSome g a.1 hs)
  · rintro ⟨⟨a, ha, ha1⟩, ⟨p, hp, hp1⟩⟩
    have hs : (mapLookup g n).isSome = true := by
      rw [mapLookup_isSome_iff_mem]
      exact List.mem_map.mpr ⟨p, hp, hp1⟩
    rcases Option.isSome_iff_exists.mp hs with ⟨f0, hf0⟩
    refine ⟨(a.1, f0), ⟨a, ha, f0, ?_, rfl⟩, ha1⟩
    rw [ha1]
    exact hf0

theorem pkgState_ok_of_keysSubDeps (e : EntrypointInfo) (q : String) (h : keysSubDeps e) :
    (pkgState e q).2.isSome = true → (pkgState e q).1 = true := by
  intro hs
  simp only [pkgState] at hs ⊢
  exact decide_eq_true (h q (mem_of_mapLookup_isSome _ _ hs))

theorem stepPkgState_inv_abs (s e : Bool × Option DeadPackageFuncs)
    (hs : s.1 = s.2.isSome) (he : e.2.isSome = true → e.1 = true) :
    (stepPkgState s e).1 = (stepPkgState s e).2.isSome ∧
      absState (stepPkgState s e) = combineNames (absState s) (contrib e) := by
  obtain ⟨b, o⟩ := s
  obtain ⟨c, p⟩ := e
  simp only at hs
  cases p with
  | none =>
    cases c with
    | false =>
      simp [stepPkgState, funcsOfRecord, contrib, combineNames, absState, hs]
    | true =>
      cases o with
      | none =>
        simp [stepPkgState, funcsOfRecord, contrib, combineNames, absState, emptyDpf,
          namesFinset]
      | some d =>
        simp [stepPkgState, funcsOfRecord, contrib, combineNames, absState, emptyDpf,
          namesFinset]
  | some dpf =>
    have hc : c = true := he (by simp)
    subst hc
    by_cases hemp : dpf.funcs = []
    · cases o with
      | none =>
        simp [stepPkgState, funcsOfRecord, hemp, contrib, combineNames, absState,
          emptyDpf, namesFinset]
      | some d =>
        simp [stepPkgState, funcsOfRecord, hemp, contrib, combineNames, absState,
          emptyDpf, namesFinset]
    · cases o with
      | none =>
        have hb : b = false := by simpa using hs
        subst hb
        simp [stepPkgState, funcsOfRecord, hemp, loop1Step, contrib, combineNames,
          absState]
      | some rd =>
        have hb : b = true := by simpa using hs
        subst hb
        simp [stepPkgState, funcsOfRecord, hemp, loop1Step, contrib, combineNames,
          absState, namesFinset_intersectFuncs]

theorem matStep_inv_abs (s : Bool × Option DeadPackageFuncs)
    (he : s.2.isSome = true → s.1 = true) :
    (matStep s).1 = (matStep s).2.isSome ∧
      absState (matStep s) = combineNames none (contrib s) := by
  obtain ⟨b, o⟩ := s
  cases o with
  | none =>
    cases b with
    | false => simp [matStep, absState, contrib, combineNames]
    | true =>
      simp [matStep, absState, contrib, combineNames, emptyDpf, funcsOfRecord, namesFinset]
  | some d =>
    have hb : b = true := he (by simp)
    subst hb
    simp [matStep, absState, contrib, combineNames, funcsOfRecord]

theorem foldl_step_abs (states : List (Bool × Option DeadPackageFuncs))
    (s0 : Bool × Option DeadPackageFuncs)
    (hs0 : s0.1 = s0.2.isSome) (hok : ∀ e ∈ states, e.2.isSome = true → e.1 = true) :
    absState (states.foldl stepPkgState s0) =
      states.foldl (fun a e => combineNames a (contrib e)) (absState s0) := by
  induction states generalizing s0 with
  | nil => rfl
  | cons e r ih =>
    have h1 := stepPkgState_inv_abs s0 e hs0 (hok e (List.mem_cons_self _ _))
    rw [List.foldl_cons, List.foldl_cons,
      ih _ h1.1 (fun x hx => hok x (List.mem_cons_of_mem _ hx)), h1.2]

theorem intersectDeadCode_names_char (e0 : EntrypointInfo) (rest : List EntrypointInfo)
    (q : String) (hnd : ∀ e ∈ rest, nodupKeys e)
    (hsub : ∀ e ∈ e0 :: rest, keysSubDeps e) :
    namesAt (intersectDeadCode (e0 :: rest)) q =
      ((e0 :: rest).map (fun e => contrib (pkgState e q))).foldl combineNames none := by
  have hchar := intersectDeadCode_lookup_char e0 rest q hnd
  have hstart : namesAt (intersectDeadCode (e0 :: rest)) q =
      absState ((rest.map (fun e => pkgState e q)).foldl stepPkgState
        (matStep (pkgState e0 q))) := by
    rw [namesAt, hchar]
    rfl
  have hm := matStep_inv_abs (pkgState e0 q)
    (pkgState_ok_of_keysSubDeps e0 q (hsub e0 (List.mem_cons_self _ _)))
  rw [hstart, foldl_step_abs _ _ hm.1 ?hok, hm.2, List.map_cons, List.foldl_cons]
  case hok =>
    intro x hx
    rcases List.mem_map.mp hx with ⟨e, he, rfl⟩
    exact pkgState_ok_of_keysSubDeps e q (hsub e (List.mem_cons_of_mem _ he))
  simp [List.foldl_map]

theorem combineNames_rcomm (a b c : Option (Finset String)) :
    combineNames (combineNames a b) c = combineNames (combineNames a c) b := by
  cases b with
  | none => cases c <;> cases a <;> simp [combineNames]
  | some s1 =>
    cases c with
    | none => cases a <;> simp [combineNames]
    | some s2 =>
      cases a with
      | none =>
        simp only [combineNames, Option.some.injEq]
        exact Finset.inter_comm s1 s2
      | some t =>
        simp only [combineNames, Option.some.injEq]
        exact Finset.inter_right_comm t s1 s2

theorem combineNames_absorb (a b : Option (Finset String)) :
    combineNames (combineNames a b) b = combineNames a b := by
  cases b with
  | none => rfl
  | some s =>
    cases a with
    | none => simp [combineNames]
    | some t => simp [combineNames, Finset.inter_assoc]

theorem foldl_eq_of_perm {α β : Type} (f : β → α → β)
    (hf : ∀ b a1 a2, f (f b a1) a2 = f (f b a2) a1)
    {l1 l2 : List α} (h : l1.Perm l2) : ∀ b, l1.foldl f b = l2.foldl f b := by
  induction h with
  | nil => intro b; rfl
  | cons x _ ih => intro b; simp only [List.foldl_cons]; exact ih _
  | swap x y l => intro b; simp only [List.foldl_cons]; rw [hf]
  | trans _ _ ih1 ih2 => intro b; rw [ih1, ih2]

/-! ## Absorption of the fully-used (empty) record -/

theorem stepPkgState_eq_reset (s e : Bool × Option DeadPackageFuncs)
    (h1 : e.1 = true) (h2 : funcsOfRecord e.2 = []) :
    stepPkgState s e = (true, some emptyDpf) := by
  simp [stepPkgState, h1, h2]

theorem stepPkgState_eq_noreset (s e : Bool × Option DeadPackageFuncs)
    (h : ¬ (e.1 = true ∧ funcsOfRecord e.2 = [])) :
    stepPkgState s e =
      match e.2 with
      | some dpf => loop1Step s dpf
      | none => s := by
  simp [stepPkgState, h]

theorem emptyShape_step (s e : Bool × Option DeadPackageFuncs) (h : emptyShape s) :
    emptyShape (stepPkgState s e) := by
  obtain ⟨h1, d, h2, h0⟩ := h
  by_cases hc : e.1 = true ∧ funcsOfRecord e.2 = []
  · rw [stepPkgState_eq_reset s e hc.1 hc.2]
    exact ⟨rfl, emptyDpf, rfl, rfl⟩
  · rw [stepPkgState_eq_noreset s e hc]
    cases hp : e.2 with
    | none => exact ⟨h1, d, h2, h0⟩
    | some dpf =>
      simp only [loop1Step, h2, h1, if_true]
      exact ⟨rfl, _, rfl, by simp [intersectFuncs, h0]⟩

theorem emptyShape_reset (s e : Bool × Option DeadPackageFuncs)
    (h1 : e.1 = true) (h0 : funcsOfRecord e.2 = []) :
    emptyShape (stepPkgState s e) := by
  simp [stepPkgState, h1, h0, emptyShape, emptyDpf]

theorem emptyShape_fold (l : List (Bool × Option DeadPackageFuncs))
    (s : Bool × Option DeadPackageFuncs) (h : emptyShape s) :
    emptyShape (l.foldl stepPkgState s) := by
  induction l generalizing s with
  | nil => exact h
  | cons e r ih => exact ih _ (emptyShape_step s e h)

/-- C2 (full-use dominance): for every run and every package P, if at least
one entrypoint has P in its dependency set and reports zero dead functions
for P (no record in its deadCode, or an empty record), then no function of P
appears in the final mapping (P maps to an empty record), no matter what
dead functions every other entrypoint reports for P. -/
theorem c2_full_use_dominance (eps : List EntrypointInfo) (ep : EntrypointInfo) (P : String)
    (hmem : ep ∈ eps) (hwf : ∀ e ∈ eps, nodupKeys e) (hdep : P ∈ ep.deps)
    (hempty : funcsOfRecord (mapLookup ep.deadCode P) = []) :
    (mapLookup (intersectDeadCode eps) P).map DeadPackageFuncs.funcs = some [] := by
  obtain ⟨l1, l2, rfl⟩ := List.append_of_mem hmem
  cases l1 with
  | nil =>
    rw [List.nil_append] at hwf ⊢
    rw [intersectDeadCode_lookup_char ep l2 P
      (fun e he => hwf e (List.mem_cons_of_mem _ he))]
    have hshape : emptyShape (matStep (pkgState ep P)) := by
      cases hL : mapLookup ep.deadCode P with
      | none =>
        have heq : pkgState ep P = (true, none) := by simp [pkgState, hdep, hL]
        rw [heq]
        exact ⟨rfl, emptyDpf, rfl, rfl⟩
      | some d =>
        have heq : pkgState ep P = (true, some d) := by simp [pkgState, hdep, hL]
        rw [heq]
        refine ⟨rfl, d, rfl, ?_⟩
        simp only [funcsOfRecord, hL, Option.map_some', Option.getD_some] at hempty
        exact hempty
    obtain ⟨h1, d, h2, h0⟩ := emptyShape_fold _ _ hshape
    rw [h2]
    simp [h0]
  | cons e0 t =>
    rw [List.cons_append] at hwf ⊢
    rw [intersectDeadCode_lookup_char e0 (t ++ ep :: l2) P
      (fun e he => hwf e (List.mem_cons_of_mem _ he)),
      List.map_append, List.foldl_append, List.map_cons, List.foldl_cons]
    have hshape : emptyShape (stepPkgState
        (List.foldl stepPkgState (matStep (pkgState e0 P))
          (List.map (fun e => pkgState e P) t)) (pkgState ep P)) := by
      apply emptyShape_reset
      · simp [pkgState, hdep]
      · exact hempty
    obtain ⟨h1, d, h2, h0⟩ := emptyShape_fold _ _ hshape
    rw [h2]
    simp [h0]

/-- W (C2): the spec's logging-style scenario: an entrypoint that imports
cache and reports nothing dead there forces cache's surviving dead set to be
empty even though the other two entrypoints report dead functions in it. -/
theorem c2_witness :
    (mapLookup (intersectDeadCode [cacheA, cacheFullyUsed, cacheB]) "cache").map
      DeadPackageFuncs.funcs = some [] :=
  c2_full_use_dominance [cacheA, cacheFullyUsed, cacheB] cacheFullyUsed "cache"
    (by decide) (by decide) (by decide) (by decide)

/-! ## C4: partial-import correctness -/

theorem matStep_funcs (s : Bool × Option DeadPackageFuncs) (h1 : s.1 = true) :
    ∃ d, matStep s = (true, some d) ∧ d.funcs = funcsOfRecord s.2 := by
  obtain ⟨b, o⟩ := s
  simp only at h1
  subst h1
  cases o with
  | none => exact ⟨emptyDpf, rfl, rfl⟩
  | some d => exact ⟨d, rfl, rfl⟩

theorem stepPkgState_names (d : DeadPackageFuncs) (e : Bool × Option DeadPackageFuncs)
    (he : e.1 = true) :
    ∃ d2, stepPkgState (true, some d) e = (true, some d2) ∧
      namesFinset d2.funcs = namesFinset d.funcs ∩ namesFinset (funcsOfRecord e.2) := by
  obtain ⟨c, p⟩ := e
  simp only at he
  subst he
  cases p with
  | none =>
    refine ⟨emptyDpf, by simp [stepPkgState, funcsOfRecord], ?_⟩
    simp [emptyDpf, namesFinset, funcsOfRecord]
  | some dpf =>
    by_cases hemp : dpf.funcs = []
    · refine ⟨emptyDpf, by simp [stepPkgState, funcsOfRecord, hemp], ?_⟩
      simp [emptyDpf, namesFinset, funcsOfRecord, hemp]
    · refine ⟨⟨d.pkg, intersectFuncs d.funcs dpf.funcs⟩, ?_, ?_⟩
      · simp [stepPkgState, funcsOfRecord, hemp, loop1Step]
      · simp [namesFinset_intersectFuncs, funcsOfRecord]

theorem stepPkgState_skip (s : Bool × Option DeadPackageFuncs) :
    stepPkgState s (false, none) = s := by
  simp [stepPkgState, funcsOfRecord]

/-- X (C4): the claim as stated is false: a third entrypoint that does
not import package p can still change p's surviving dead set when its
analyzer report mentions p.  Here A and B both import p and both report f
and g dead, so the claimed result is {f, g}; the outsider's report shrinks
it to {f}. -/
theorem c4_counterexample :
    "p" ∈ ceBothFG.deps ∧ "p" ∉ ceOutsiderF.deps ∧
    namesAt (intersectDeadCode [ceBothFG, ceBothFG, ceOutsiderF]) "p" ≠
      some (namesFinset (funcsOfRecord (mapLookup ceBothFG.deadCode "p")) ∩
        namesFinset (funcsOfRecord (mapLookup ceBothFG.deadCode "p"))) := by
  decide

/-- C4 (amended): if package P is in the dependency sets of exactly
entrypoints A and B and not of C, and C's analyzer report does not mention P
either (the data-model invariant for a package C does not import), then P's
surviving dead set equals the intersection of the function-name sets A and B
reported for P, and C's data has no influence. -/
theorem c4_partial_import_amended (A B C : EntrypointInfo) (P : String)
    (hwfB : nodupKeys B) (hwfC : nodupKeys C)
    (hA : P ∈ A.deps) (hB : P ∈ B.deps) (hC : P ∉ C.deps)
    (hCd : mapLookup C.deadCode P = none) :
    namesAt (intersectDeadCode [A, B, C]) P =
      some (namesFinset (funcsOfRecord (mapLookup A.deadCode P)) ∩
        namesFinset (funcsOfRecord (mapLookup B.deadCode P))) := by
  rw [namesAt, intersectDeadCode_lookup_char A [B, C] P ?hnd]
  case hnd =>
    intro e he
    simp only [List.mem_cons, List.not_mem_nil, or_false] at he
    rcases he with rfl | rfl
    · exact hwfB
    · exact hwfC
  simp only [List.map_cons, List.map_nil, List.foldl_cons, List.foldl_nil]
  have hsC : pkgState C P = (false, none) := by simp [pkgState, hC, hCd]
  rw [hsC]
  obtain ⟨dA, hA1, hA2⟩ := matStep_funcs (pkgState A P) (by simp [pkgState, hA])
  rw [hA1]
  obtain ⟨d2, h21, h22⟩ := stepPkgState_names dA (pkgState B P) (by simp [pkgState, hB])
  rw [h21, stepPkgState_skip]
  simp only [Option.map_some']
  rw [h22, hA2]
  rfl

/-- W (C4): the spec's concrete cache scenario: cache imported by A and B
only, A reports {Set, Delete}, B reports {Get, Delete}, C has no opinion;
the surviving dead set is A's ∩ B's reported names, namely {Delete}. -/
theorem c4_witness :
    namesAt (intersectDeadCode [cacheA, cacheB, cacheC]) "cache" =
      some (namesFinset (funcsOfRecord (mapLookup cacheA.deadCode "cache")) ∩
        namesFinset (funcsOfRecord (mapLookup cacheB.deadCode "cache"))) ∧
    namesAt (intersectDeadCode [cacheA, cacheB, cacheC]) "cache" = some {"Delete"} :=
  ⟨c4_partial_import_amended cacheA cacheB cacheC "cache" (by decide) (by decide)
    (by decide) (by decide) (by decide) (by decide), by decide⟩

/-! ## C1: order independence, C10: merge idempotence -/

/-- X (C1): the claim as stated is false: when an entrypoint's analyzer
report mentions a package absent from its dependency set, the record is
adopted wholesale and a later such record overwrites it, so the fold order
matters.  Swapping the two entrypoints changes p's surviving set from {g}
to {f}. -/
theorem c1_counterexample :
    List.Perm [ceNoDepF, ceNoDepG] [ceNoDepG, ceNoDepF] ∧
    namesAt (intersectDeadCode [ceNoDepF, ceNoDepG]) "p" ≠
      namesAt (intersectDeadCode [ceNoDepG, ceNoDepF]) "p" := by
  decide

/-- C1 (amended): order independence holds for entrypoints satisfying the
spec's data-model invariant (every package with a dead-code record is in the
dependency set): for every non-empty list of per-entrypoint (deps, deadCode)
pairs and every permutation of it, `intersectDeadCode` yields the same
mapping from package to the set of surviving dead-function names; merging is
commutative with unknown as the identity on this name-set lattice. -/
theorem c1_order_independence_amended (eps eps2 : List EntrypointInfo)
    (hne : eps ≠ []) (hwf : ∀ e ∈ eps, nodupKeys e)
    (hsub : ∀ e ∈ eps, keysSubDeps e) (hperm : eps.Perm eps2) :
    ∀ pkg, namesAt (intersectDeadCode eps) pkg = namesAt (intersectDeadCode eps2) pkg := by
  intro pkg
  have hne2 : eps2 ≠ [] := by
    intro h
    apply hne
    have hlen := hperm.length_eq
    rw [h] at hlen
    simpa using List.length_eq_zero.mp hlen
  obtain ⟨e0, rest, rfl⟩ := List.exists_cons_of_ne_nil hne
  obtain ⟨f0, rest2, rfl⟩ := List.exists_cons_of_ne_nil hne2
  rw [intersectDeadCode_names_char e0 rest pkg
      (fun e he => hwf e (List.mem_cons_of_mem _ he)) hsub,
    intersectDeadCode_names_char f0 rest2 pkg
      (fun e he => hwf e (hperm.mem_iff.mpr (List.mem_cons_of_mem _ he)))
      (fun e he => hsub e (hperm.mem_iff.mpr he))]
  exact foldl_eq_of_perm combineNames combineNames_rcomm (hperm.map _) none

/-- W (C1): order independence on a well-formed two-entrypoint run. -/
theorem c1_witness :
    namesAt (intersectDeadCode [wEpA, wEpB]) "p" =
      namesAt (intersectDeadCode [wEpB, wEpA]) "p" :=
  c1_order_independence_amended [wEpA, wEpB] [wEpB, wEpA]
    (by decide) (by decide) (by decide) (by decide) "p"

theorem foldl_combineNames_dup (cs1 cs2 cs3 : List (Option (Finset String)))
    (c a : Option (Finset String)) :
    (cs1 ++ (c :: (cs2 ++ (c :: cs3)))).foldl combineNames a =
      (cs1 ++ (c :: (cs2 ++ cs3))).foldl combineNames a := by
  have hL : (cs1 ++ (c :: (cs2 ++ (c :: cs3)))).foldl combineNames a
      = (cs2 ++ (c :: cs3)).foldl combineNames
          (combineNames (cs1.foldl combineNames a) c) := by
    rw [List.foldl_append, List.foldl_cons]
  have hR : (cs1 ++ (c :: (cs2 ++ cs3))).foldl combineNames a
      = (cs2 ++ cs3).foldl combineNames
          (combineNames (cs1.foldl combineNames a) c) := by
    rw [List.foldl_append, List.foldl_cons]
  rw [hL, hR, foldl_eq_of_perm combineNames combineNames_rcomm List.perm_middle,
    List.foldl_cons, combineNames_absorb]

/-- X (C10): the claim as stated is false: duplicating the first entrypoint
(whose report mentions p without importing it) after the second changes p's
surviving set from {g} to the empty set, because the duplicate's record is
now intersected instead of re-adopted. -/
theorem c10_counterexample :
    namesAt (intersectDeadCode [ceNoDepF, ceDepG, ceNoDepF]) "p" ≠
      namesAt (intersectDeadCode [ceNoDepF, ceDepG]) "p" := by
  decide

/-- C10 (amended): merge idempotence holds for entrypoints satisfying the
spec's data-model invariant: inserting a duplicate of any entrypoint's pair
anywhere after an occurrence of it leaves the mapping from package to
surviving dead-function names unchanged — intersecting a set with itself and
re-forcing an already-empty record are no-ops. -/
theorem c10_idempotence_amended (l1 l2 l3 : List EntrypointInfo) (x : EntrypointInfo)
    (hwf : ∀ e ∈ l1 ++ x :: l2 ++ x :: l3, nodupKeys e)
    (hsub : ∀ e ∈ l1 ++ x :: l2 ++ x :: l3, keysSubDeps e) :
    ∀ pkg, namesAt (intersectDeadCode (l1 ++ x :: l2 ++ x :: l3)) pkg =
      namesAt (intersectDeadCode (l1 ++ x :: l2 ++ l3)) pkg := by
  intro pkg
  have hmem : ∀ e : EntrypointInfo, e ∈ l1 ++ x :: l2 ++ l3 → e ∈ l1 ++ x :: l2 ++ x :: l3 := by
    intro e he
    simp only [List.mem_append, List.mem_cons] at he ⊢
    tauto
  cases l1 with
  | nil =>
    simp only [List.nil_append, List.cons_append] at hwf hsub hmem ⊢
    rw [intersectDeadCode_names_char x (l2 ++ x :: l3) pkg
        (fun e he => hwf e (List.mem_cons_of_mem _ he)) hsub,
      intersectDeadCode_names_char x (l2 ++ l3) pkg
        (fun e he => hwf e (hmem e (List.mem_cons_of_mem _ he)))
        (fun e he => hsub e (hmem e he))]
    simp only [List.map_cons, List.map_append]
    exact foldl_combineNames_dup [] (l2.map (fun e => contrib (pkgState e pkg)))
      (l3.map (fun e => contrib (pkgState e pkg))) (contrib (pkgState x pkg)) none
  | cons e0 t =>
    simp only [List.cons_append, List.append_assoc] at hwf hsub hmem ⊢
    rw [intersectDeadCode_names_char e0 (t ++ (x :: (l2 ++ (x :: l3)))) pkg
        (fun e he => hwf e (List.mem_cons_of_mem _ he)) hsub,
      intersectDeadCode_names_char e0 (t ++ (x :: (l2 ++ l3))) pkg
        (fun e he => hwf e (hmem e (List.mem_cons_of_mem _ he)))
        (fun e he => hsub e (hmem e he))]
    simp only [List.map_cons, List.map_append]
    exact foldl_combineNames_dup
      (contrib (pkgState e0 pkg) :: t.map (fun e => contrib (pkgState e pkg)))
      (l2.map (fun e => contrib (pkgState e pkg)))
      (l3.map (fun e => contrib (pkgState e pkg))) (contrib (pkgState x pkg)) none

/-- W (C10): duplicating an entrypoint of a well-formed run at the end
leaves the surviving name sets unchanged. -/
theorem c10_witness :
    namesAt (intersectDeadCode [wEpA, wEpB, wEpA]) "p" =
      namesAt (intersectDeadCode [wEpA, wEpB]) "p" :=
  c10_idempotence_amended [] [wEpB] [] wEpA (by decide) (by decide) "p"

/-! ## C3: import gating -/

theorem not_mem_keys_of_mapLookup_eq_none {V : Type} (m : List (String × V)) (q : String)
    (h : mapLookup m q = none) : q ∉ m.map Prod.fst := by
  intro hmem
  have hs := (mapLookup_isSome_iff_mem m q).mpr hmem
  rw [h] at hs
  simp at hs

theorem pkgState_mergeEntrypoint_skip (res ep : EntrypointInfo) (P : String)
    (hdep : P ∉ ep.deps) (hdc : mapLookup ep.deadCode P = none) :
    pkgState (mergeEntrypoint res ep) P = pkgState res P := by
  unfold mergeEntrypoint
  rw [pkgState_foldl_mark,
    pkgState_foldl_merge_not_mem _ _ _ (not_mem_keys_of_mapLookup_eq_none _ _ hdc)]
  simp [hdep]

theorem fold_merge_skip (rest : List EntrypointInfo) (res : EntrypointInfo) (P : String)
    (h : ∀ e ∈ rest, P ∉ e.deps ∧ mapLookup e.deadCode P = none) :
    pkgState (rest.foldl mergeEntrypoint res) P = pkgState res P := by
  induction rest generalizing res with
  | nil => rfl
  | cons e r ih =>
    rw [List.foldl_cons, ih _ (fun x hx => h x (List.mem_cons_of_mem _ hx)),
      pkgState_mergeEntrypoint_skip res e P (h e (List.mem_cons_self _ _)).1
        (h e (List.mem_cons_self _ _)).2]

/-- X (C3): the claim as stated is false: a package in no entrypoint's
dependency set does appear in the output when an analyzer report contains a
dead-code record for it — the first entrypoint's records are adopted
wholesale without consulting `deps`, so p survives with a non-empty record
and a rendered text line. -/
theorem c3_counterexample :
    "p" ∉ ceNoDepF.deps ∧
    (mapLookup (intersectDeadCode [ceNoDepF]) "p").isSome = true ∧
    printText (intersectDeadCode [ceNoDepF]) ≠ [] := by
  decide

/-- C3 (amended): a package that belongs to no entrypoint's dependency set
and appears in no entrypoint's analyzer report never appears in the final
mapping.  (Equivalently, under the data-model invariant that reports only
mention imported packages, a package in no dependency set never appears.) -/
theorem c3_import_gating_amended (eps : List EntrypointInfo) (P : String)
    (h : ∀ e ∈ eps, P ∉ e.deps ∧ mapLookup e.deadCode P = none) :
    mapLookup (intersectDeadCode eps) P = none := by
  cases eps with
  | nil => rfl
  | cons e0 rest =>
    have h0 : pkgState e0 P = (false, none) := by
      simp [pkgState, (h e0 (List.mem_cons_self _ _)).1, (h e0 (List.mem_cons_self _ _)).2]
    have hmat : pkgState (materializeFullyUsed e0) P = (false, none) := by
      rw [pkgState_materializeFullyUsed, h0]
      rfl
    have hfin := fold_merge_skip rest (materializeFullyUsed e0) P
      (fun x hx => h x (List.mem_cons_of_mem _ hx))
    rw [hmat] at hfin
    show (pkgState (rest.foldl mergeEntrypoint (materializeFullyUsed e0)) P).2 = none
    rw [hfin]

/-- W (C3): a package imported by nobody and mentioned by no report is
absent from the final mapping. -/
theorem c3_witness : mapLookup (intersectDeadCode [cacheC]) "cache" = none :=
  c3_import_gating_amended [cacheC] "cache" (by decide)

/-! ## C5: which FunctionRecord survives the intersection -/

theorem mapLookup_intersectFuncs_sub (f g : List (String × Function)) (n : String)
    (fn : Function) (h : mapLookup (intersectFuncs f g) n = some fn) :
    mapLookup g n = some fn := by
  induction f with
  | nil => simp [intersectFuncs, mapLookup] at h
  | cons hd r ih =>
    obtain ⟨m, fv⟩ := hd
    simp only [intersectFuncs, List.filterMap_cons] at h ih
    cases hg : mapLookup g m with
    | none =>
      rw [hg] at h
      simp only [Option.map_none'] at h
      exact ih h
    | some w =>
      rw [hg] at h
      simp only [Option.map_some'] at h
      by_cases hm : m = n
      · subst hm
        simp only [mapLookup, if_pos rfl, Option.some.injEq] at h
        rw [← h]
        exact hg
      · simp only [mapLookup, if_neg hm] at h
        exact ih h

/-- X (C5): the claim as stated is false: when the accumulator's record for
p (from `wEpA`, position a.go:1:1) is intersected with the incoming
entrypoint's record (from `wEpB`, position b.go:9:9), the surviving function
carries the incoming record, not the one already stored. -/
theorem c5_counterexample :
    (mapLookup (intersectDeadCode [wEpA, wEpB]) "p").map DeadPackageFuncs.funcs =
      some [("f", wFunB)] ∧ wFunB ≠ wFunA := by
  decide

/-- C5 (amended): when the engine intersects the accumulator's record for a
package P with a later entrypoint EP's record for P, the surviving record
keeps the accumulator's Package value but every surviving function name maps
to the FunctionRecord stored in EP's record (the incoming position data
replaces the accumulator's). -/
theorem c5_record_from_incoming (result ep : EntrypointInfo) (P : String)
    (rd ed : DeadPackageFuncs) (hwf : nodupKeys ep)
    (hres : mapLookup result.deadCode P = some rd) (hdep : P ∈ result.deps)
    (hep : mapLookup ep.deadCode P = some ed) (hne : ed.funcs ≠ []) :
    mapLookup (mergeEntrypoint result ep).deadCode P =
      some ⟨rd.pkg, intersectFuncs rd.funcs ed.funcs⟩ ∧
    (∀ fn g, mapLookup (intersectFuncs rd.funcs ed.funcs) fn = some g →
      mapLookup ed.funcs fn = some g) := by
  constructor
  · have hm := pkgState_mergeEntrypoint result ep P hwf
    have hsr : pkgState result P = (true, some rd) := by simp [pkgState, hdep, hres]
    have hse : (pkgState ep P).2 = some ed := by simp [pkgState, hep]
    show (pkgState (mergeEntrypoint result ep) P).2 = _
    rw [hm, stepPkgState_eq_noreset _ _ ?hc]
    case hc =>
      rintro ⟨h1, h2⟩
      rw [hse] at h2
      simp only [funcsOfRecord, Option.map_some', Option.getD_some] at h2
      exact hne h2
    rw [hse, hsr]
    simp [loop1Step]
  · exact fun fn g hflu => mapLookup_intersectFuncs_sub rd.funcs ed.funcs fn g hflu

/-- W (C5): the intersection of wEpA's accumulator record with wEpB's
incoming record keeps wEpB's FunctionRecord for the surviving name. -/
theorem c5_witness :
    mapLookup (mergeEntrypoint wEpA wEpB).deadCode "p" =
      some ⟨none, intersectFuncs [("f", wFunA)] [("f", wFunB)]⟩ ∧
    (∀ fn g, mapLookup (intersectFuncs [("f", wFunA)] [("f", wFunB)]) fn = some g →
      mapLookup [("f", wFunB)] fn = some g) :=
  c5_record_from_incoming wEpA wEpB "p" ⟨none, [("f", wFunA)]⟩ ⟨none, [("f", wFunB)]⟩
    (by decide) (by decide) (by decide) (by decide) (by decide)

/-! ## C6: path normalization -/

theorem isAbsPath_joinPath (dir f : String) (h : isAbsPath dir = true) :
    isAbsPath (joinPath dir f) = true := by
  unfold joinPath
  unfold isAbsPath at h ⊢
  rw [String.data_append, String.data_append]
  cases hd : dir.data with
  | nil =>
    rw [hd] at h
    exact absurd h (by simp)
  | cons c cs =>
    rw [hd] at h
    simpa using h

/-- X (C6): the claim (and the spec) say a relative path is made absolute by
joining it with the module-root directory; the code joins it with the
directory of the entrypoint file instead, and the two differ whenever the
entrypoint does not sit at the module root. -/
theorem c6_counterexample :
    normalizeFile false "/repo/services/authn" "/repo" "pkg/cache/cache.go" ≠
      normalizeFileSpecModuleRoot false "/repo" "pkg/cache/cache.go" := by
  decide

/-- C6 (amended): an absolute analyzer path is kept as the base; a relative
path is made absolute by joining it with the directory of the entrypoint
file (not the module root); then, as the run-wide decision, the root prefix
is cut exactly when all entrypoints share one common module, and otherwise
the emitted path stays absolute. -/
theorem c6_normalization_amended (h : Bool) (dir root f : String)
    (hdir : isAbsPath dir = true) :
    (isAbsPath f = true → normalizeFile h dir root f =
      (if h then cutRootDir root f else f)) ∧
    (isAbsPath f = false → normalizeFile h dir root f =
      (if h then cutRootDir root (joinPath dir f) else joinPath dir f)) ∧
    (h = false → isAbsPath (normalizeFile h dir root f) = true) := by
  refine ⟨?_, ?_, ?_⟩
  · intro habs
    simp [normalizeFile, habs]
  · intro habs
    simp [normalizeFile, habs]
  · intro hfalse
    subst hfalse
    by_cases habs : isAbsPath f = true
    · simp [normalizeFile, habs]
    · have habs2 : isAbsPath f = false := by
        cases hb : isAbsPath f
        · rfl
        · exact absurd hb habs
      simp only [normalizeFile, habs2, Bool.false_eq_true, if_false]
      exact isAbsPath_joinPath dir f hdir

/-- W (C6): with no common module the emitted path for a relative report is
absolute. -/
theorem c6_witness :
    isAbsPath (normalizeFile false "/repo/services/authn" "/repo/" "pkg/c.go") = true :=
  (c6_normalization_amended false "/repo/services/authn" "/repo/" "pkg/c.go"
    (by decide)).2.2 rfl

/-! ## C7: module-compatibility policy -/

theorem verifyModules_same_ok (filterFlag c : String) (b : Bool) (ms : List String)
    (hc : c ≠ "") (hall : ∀ m ∈ ms, m = c) :
    verifyModules filterFlag ⟨c, b⟩ ms = Except.ok ⟨c, b⟩ := by
  induction ms with
  | nil => rfl
  | cons m ms ih =>
    have hm : m = c := hall m (List.mem_cons_self _ _)
    subst hm
    simp only [verifyModules, verifyModule, hc, if_neg hc, if_pos rfl]
    exact ih (fun x hx => hall x (List.mem_cons_of_mem _ hx))

theorem verifyModules_mismatch (filterFlag c : String) (b : Bool)
    (good tail : List String) (bad : String)
    (hdef : filterFlag = "<module>" ∨ filterFlag = "") (hc : c ≠ "")
    (hgood : ∀ m ∈ good, m = c) (hbad : bad ≠ c) :
    verifyModules filterFlag ⟨c, b⟩ (good ++ bad :: tail) =
      Except.error (moduleMismatchMsg c bad) := by
  induction good with
  | nil =>
    simp [verifyModules, verifyModule, hc, (show ¬ c = bad from fun hh => hbad hh.symm), hdef]
  | cons m good ih =>
    have hm : m = c := hgood m (List.mem_cons_self _ _)
    subst hm
    simp only [List.cons_append, verifyModules, verifyModule, hc, if_neg hc, if_pos rfl]
    exact ih (fun x hx => hgood x (List.mem_cons_of_mem _ hx))

theorem verifyModules_custom (filterFlag c : String) (b : Bool) (ms : List String)
    (hcust1 : filterFlag ≠ "<module>") (hcust2 : filterFlag ≠ "") (hc : c ≠ "") :
    ∃ b2, verifyModules filterFlag ⟨c, b⟩ ms = Except.ok ⟨c, b2⟩ ∧
      (b2 = true ↔ (b = true ∧ ∀ m ∈ ms, m = c)) := by
  induction ms generalizing b with
  | nil => exact ⟨b, rfl, by simp⟩
  | cons m ms ih =>
    by_cases hm : c = m
    · subst hm
      obtain ⟨b2, h1, h2⟩ := ih b
      refine ⟨b2, ?_, ?_⟩
      · simp only [verifyModules, verifyModule, hc, if_neg hc, if_pos rfl]
        exact h1
      · rw [h2]
        simp [List.forall_mem_cons]
    · obtain ⟨b2, h1, h2⟩ := ih false
      refine ⟨b2, ?_, ?_⟩
      · simp only [verifyModules, verifyModule, hc, if_neg hc, if_neg hm,
          if_neg (show ¬ (filterFlag = "<module>" ∨ filterFlag = "") from by
            rintro (hh | hh)
            · exact hcust1 hh
            · exact hcust2 hh)]
        exact h1
      · rw [h2]
        simp [List.forall_mem_cons, (show ¬ m = c from fun hh => hm hh.symm)]

/-- C7: the first resolved entrypoint establishes the common module; a
subsequent entrypoint with a different module identity fails resolution with
the module-mismatch error exactly when no custom cross-module filter is
active (filter is `<module>` or empty), and with a custom filter every
entrypoint is accepted and the run's has-common-module flag ends up true iff
every module identity matches the first (false = the degraded
no-common-module state that forces absolute paths). -/
theorem c7_module_policy (filterFlag m0 : String) (rest : List String) (hm0 : m0 ≠ "") :
    ((filterFlag = "<module>" ∨ filterFlag = "") →
      ((∀ m ∈ rest, m = m0) →
        verifyModules filterFlag initialModuleState (m0 :: rest) =
          Except.ok ⟨m0, true⟩) ∧
      (∀ good bad tail, rest = good ++ bad :: tail → (∀ m ∈ good, m = m0) → bad ≠ m0 →
        verifyModules filterFlag initialModuleState (m0 :: rest) =
          Except.error (moduleMismatchMsg m0 bad))) ∧
    ((filterFlag ≠ "<module>" ∧ filterFlag ≠ "") →
      ∃ hasCommon, verifyModules filterFlag initialModuleState (m0 :: rest) =
        Except.ok ⟨m0, hasCommon⟩ ∧ (hasCommon = true ↔ ∀ m ∈ rest, m = m0)) := by
  have hstep : verifyModules filterFlag initialModuleState (m0 :: rest) =
      verifyModules filterFlag ⟨m0, true⟩ rest := by
    simp [verifyModules, verifyModule, initialModuleState]
  constructor
  · intro hdef
    constructor
    · intro hall
      rw [hstep]
      exact verifyModules_same_ok filterFlag m0 true rest hm0 hall
    · intro good bad tail hrest hgood hbad
      rw [hstep, hrest]
      exact verifyModules_mismatch filterFlag m0 true good tail bad hdef hm0 hgood hbad
  · intro hcust
    obtain ⟨b2, h1, h2⟩ := verifyModules_custom filterFlag m0 true rest hcust.1 hcust.2 hm0
    refine ⟨b2, ?_, ?_⟩
    · rw [hstep]
      exact h1
    · rw [h2]
      simp

/-- W (C7): with a custom filter, two entrypoints in different modules are
accepted and the run degrades to the no-common-module state. -/
theorem c7_witness :
    ∃ hasCommon, verifyModules "myfilter" initialModuleState ["mod1/", "mod2/"] =
      Except.ok ⟨"mod1/", hasCommon⟩ ∧ (hasCommon = true ↔ ∀ m ∈ ["mod2/"], m = "mod1/") :=
  (c7_module_policy "myfilter" "mod1/" ["mod2/"] (by decide)).2 (by decide)

/-! ## C8: abort on first failure with no partial output -/

theorem sequenceResults_append_error {A : Type} (pre : List (Except String A))
    (e : String) (post : List (Except String A))
    (h : ∀ r ∈ pre, ∃ a, r = Except.ok a) :
    sequenceResults (pre ++ Except.error e :: post) = Except.error e := by
  induction pre with
  | nil => rfl
  | cons r rs ih =>
    obtain ⟨a, rfl⟩ := h r (List.mem_cons_self _ _)
    rw [List.cons_append]
    show (match sequenceResults (rs ++ Except.error e :: post) with
      | Except.error e1 => Except.error e1
      | Except.ok as => Except.ok (a :: as)) = Except.error e
    rw [ih (fun x hx => h x (List.mem_cons_of_mem _ hx))]

theorem sequenceResults_ok {A : Type} (l : List (Except String A))
    (h : ∀ r ∈ l, ∃ a, r = Except.ok a) :
    ∃ as, sequenceResults l = Except.ok as := by
  induction l with
  | nil => exact ⟨[], rfl⟩
  | cons r rs ih =>
    obtain ⟨a, rfl⟩ := h r (List.mem_cons_self _ _)
    obtain ⟨as, has⟩ := ih (fun x hx => h x (List.mem_cons_of_mem _ hx))
    refine ⟨a :: as, ?_⟩
    show (match sequenceResults rs with
      | Except.error e1 => Except.error e1
      | Except.ok bs => Except.ok (a :: bs)) = Except.ok (a :: as)
    rw [has]

/-- C8: whenever any per-entrypoint step fails (module resolution or
dependency listing in the scan phase, or dead-code collection), `Run` stops
at that error: it returns exactly the first failing step's error, writes
nothing to the output writer (no text lines and no structured document), and
the outcome does not depend on the outcomes of any later entrypoint. -/
theorem c8_abort_no_partial_output (j : Bool) :
    (∀ (pre post : List (Except String EntrypointInfo))
      (deads : List (Except String (List (String × DeadPackageFuncs)))) (e : String),
      (∀ r ∈ pre, ∃ a, r = Except.ok a) →
      runModel j (Except.ok ()) (pre ++ Except.error e :: post) deads = (none, some e)) ∧
    (∀ (scans : List (Except String EntrypointInfo))
      (predead postdead : List (Except String (List (String × DeadPackageFuncs))))
      (e : String),
      scans ≠ [] → (∀ r ∈ scans, ∃ a, r = Except.ok a) →
      (∀ r ∈ predead, ∃ a, r = Except.ok a) →
      runModel j (Except.ok ()) scans (predead ++ Except.error e :: postdead) =
        (none, some e)) := by
  constructor
  · intro pre post deads e hpre
    have hne : (pre ++ Except.error e :: post).isEmpty = false := by
      cases pre <;> rfl
    unfold runModel
    rw [hne, sequenceResults_append_error pre e post hpre]
    rfl
  · intro scans predead postdead e hne hscans hpredead
    obtain ⟨as, hseq⟩ := sequenceResults_ok scans hscans
    have hneB : scans.isEmpty = false := by
      cases scans with
      | nil => exact absurd rfl hne
      | cons r rs => rfl
    unfold runModel
    rw [hneB, hseq, sequenceResults_append_error predead e postdead hpredead]
    rfl

/-- W (C8): a failing first scan produces exactly that error and no
output. -/
theorem c8_witness :
    runModel false (Except.ok ()) [Except.error "boom"] [] = (none, some "boom") :=
  (c8_abort_no_partial_output false).1 [] [] [] "boom" (by simp)

/-! ## C9: text rendering -/

/-- C9: on success in text mode the emitted lines are exactly the rendered
`<file>:<line>:<col>: unreachable func: <name>` strings of the surviving
dead functions — one line per surviving function (a permutation of the
collected renderings, with matching count) — and they are sorted by the
lexicographic order of the whole rendered string. -/
theorem c9_text_rendering (deadCode : List (String × DeadPackageFuncs)) :
    (printText deadCode).Perm (renderAll deadCode) ∧
    List.Sorted (fun a b : String => a ≤ b) (printText deadCode) ∧
    (printText deadCode).length = (deadCode.map (fun e => e.2.funcs.length)).sum := by
  refine ⟨List.perm_insertionSort _ _, List.sorted_insertionSort _ _, ?_⟩
  have hl : ∀ dc : List (String × DeadPackageFuncs),
      (renderAll dc).length = (dc.map (fun e => e.2.funcs.length)).sum := by
    intro dc
    induction dc with
    | nil => rfl
    | cons hd r ih =>
      have hstep : renderAll (hd :: r) =
          hd.2.funcs.map (fun nf => renderFunc nf.2) ++ renderAll r := rfl
      rw [hstep]
      simp [ih]
  have hpt : printText deadCode =
      List.insertionSort (fun a b : String => a ≤ b) (renderAll deadCode) := rfl
  rw [hpt, (List.perm_insertionSort (fun a b : String => a ≤ b)
    (renderAll deadCode)).length_eq]
  exact hl deadCode

end Analysis
